import Mathlib

/-!
Verification of the MarketAI-Core pipeline (shallow embedding).

Python dictionaries are modelled as insertion-ordered association lists
`List (String × α)`; Python float arithmetic in the budget allocator
(`int(x * 0.2)`, `int(x * 0.3)`, `int(b * (a / t))`) is modelled exactly as
rational arithmetic truncated toward zero (`Int.tdiv`), which matches the
Python result on the magnitudes the program handles; Python strings are
modelled as `String`, with the `in`/`split`/`replace`/`lower` operations
re-implemented on the underlying character list (ASCII lowering, as the
program only manipulates ASCII channel names and summaries).
-/

namespace MarketAI

/-! ### Python dict operations on insertion-ordered association lists -/

/-- Keys of an association list, in insertion order. -/
def dKeys {α : Type} (l : List (String × α)) : List String :=
  l.map Prod.fst

/-- Python `d[k] = v`: replace the value at the first occurrence of `k`,
keeping its position, or append a new entry at the end. -/
def pyDictSet {α : Type} (l : List (String × α)) (k : String) (v : α) :
    List (String × α) :=
  match l with
  | [] => [(k, v)]
  | (k', v') :: rest =>
    if k' = k then (k, v) :: rest else (k', v') :: pyDictSet rest k v

/-- Python `d.get(k, dflt)`: value at the first occurrence of `k`, else the
default. -/
def pyDictGetD {α : Type} (l : List (String × α)) (k : String) (dflt : α) : α :=
  match l with
  | [] => dflt
  | (k', v') :: rest => if k' = k then v' else pyDictGetD rest k dflt

/-- Python `k in d`. -/
def pyDictHasKey {α : Type} (l : List (String × α)) (k : String) : Bool :=
  match l with
  | [] => false
  | (k', _) :: rest => k' = k || pyDictHasKey rest k

/-- Python `d.pop(k, None)`: remove the first occurrence of key `k`. -/
def pyDictPop {α : Type} (l : List (String × α)) (k : String) :
    List (String × α) :=
  match l with
  | [] => []
  | (k', v') :: rest =>
    if k' = k then rest else (k', v') :: pyDictPop rest k

/-- Python `sum(d.values())` for an integer-valued dict. -/
def sumVals (l : List (String × Int)) : Int :=
  (l.map Prod.snd).sum

/-- Python `max(d, key=d.get)`: the first entry (in insertion order) holding
the maximal value.  `max` keeps the current best unless a strictly greater
value appears, so ties go to the earliest key. -/
def maxEntry : List (String × Int) → Option (String × Int)
  | [] => none
  | (k, v) :: rest =>
    match maxEntry rest with
    | none => some (k, v)
    | some (k', v') => if v' > v then some (k', v') else some (k, v)

/-! ### Python string operations on character lists -/

/-- Test whether `pre` is a prefix of `s` (character lists). -/
def startsWithCh : List Char → List Char → Bool
  | _, [] => true
  | [], _ :: _ => false
  | c :: cs, d :: ds => c = d && startsWithCh cs ds

/-- Python `sub in s` (substring containment) on character lists. -/
def containsCh (hay sub : List Char) : Bool :=
  if startsWithCh hay sub then true
  else
    match hay with
    | [] => false
    | _ :: cs => containsCh cs sub

/-- Characters of `hay` strictly before the first occurrence of `sub`
(all of `hay` when `sub` does not occur): this is `hay.split(sub)[0]`. -/
def prefixBeforeCh (hay sub : List Char) : List Char :=
  if startsWithCh hay sub then []
  else
    match hay with
    | [] => []
    | c :: cs => c :: prefixBeforeCh cs sub

/-- Python `s.split()` (split on whitespace runs, dropping empty pieces),
on character lists; `cur` accumulates the current word reversed. -/
def pyWordsAux : List Char → List Char → List (List Char)
  | [], cur => if cur.isEmpty then [] else [cur.reverse]
  | c :: cs, cur =>
    if c.isWhitespace then
      if cur.isEmpty then pyWordsAux cs [] else cur.reverse :: pyWordsAux cs []
    else pyWordsAux cs (c :: cur)

/-- Python `s.replace(a, r)` for a single-character pattern `a`. -/
def replaceChar (a : Char) (r : List Char) : List Char → List Char
  | [] => []
  | c :: cs => (if c = a then r else [c]) ++ replaceChar a r cs

/-- Python `sub in s` on strings. -/
def strContains (hay sub : String) : Bool :=
  containsCh hay.toList sub.toList

/-- Python `s.split(sub)[0]` on strings. -/
def strPrefixBefore (hay sub : String) : String :=
  String.mk (prefixBeforeCh hay.toList sub.toList)

/-- Python `s.split()` on strings. -/
def strWords (s : String) : List String :=
  (pyWordsAux s.toList []).map String.mk

/-! ### Step 1 — Input Parser (`components/step_1_input_parser.py`) -/

/-- Values stored in the cleaned request dict: strings, ints, or Python
`None` (the unset optional budget fields). -/
inductive PyVal where
  | s (v : String)
  | i (v : Int)
  | vnone
  deriving DecidableEq, Repr

/-- Raw request body: the `_CampaignInputInternal` pydantic model's fields.
Optional integer fields are `Option Int`. -/
structure RawRequest where
  business_type : String
  location : String
  goal_description : String
  budget_min : Option Int
  budget_max : Option Int
  budget_fixed : Option Int
  channel_preference : String
  user_id : String
  deriving DecidableEq, Repr

/-- Allowed `channel_preference` values from the source's validator. -/
def allowedPreferences : List String :=
  ["Online", "Offline", "Both", "AI Recommend"]

/-- Validator `check_channel_preference`: membership in the allowed list. -/
def check_channel_preference (v : String) : Bool :=
  allowedPreferences.contains v

/-- Encode an `Optional[int]` field as a dict value. -/
def optIntVal : Option Int → PyVal
  | none => PyVal.vnone
  | some n => PyVal.i n

/-- Model of `validated_input.dict()`: fields in declaration order. -/
def rawDict (r : RawRequest) : List (String × PyVal) :=
  [("business_type", PyVal.s r.business_type),
   ("location", PyVal.s r.location),
   ("goal_description", PyVal.s r.goal_description),
   ("budget_min", optIntVal r.budget_min),
   ("budget_max", optIntVal r.budget_max),
   ("budget_fixed", optIntVal r.budget_fixed),
   ("channel_preference", PyVal.s r.channel_preference),
   ("user_id", PyVal.s r.user_id)]

/-- Budget standardization from `parse_input`: fixed, else floor-average of
min and max, else min, else the default 5000. -/
def resolveBudget (r : RawRequest) : Int :=
  match r.budget_fixed with
  | some b => b
  | none =>
    match r.budget_min, r.budget_max with
    | some lo, some hi => Int.fdiv (lo + hi) 2
    | some lo, none => lo
    | none, _ => 5000

/-- Model of `parse_input`: validate `channel_preference`, build the dict,
set `budget`, and pop the three raw budget fields.  The pydantic
`ValidationError` is re-raised as `ValueError`, modelled as `Except.error`. -/
def parse_input (r : RawRequest) : Except String (List (String × PyVal)) :=
  if check_channel_preference r.channel_preference then
    let d0 := rawDict r
    let d1 := pyDictSet d0 "budget" (PyVal.i (resolveBudget r))
    Except.ok (pyDictPop (pyDictPop (pyDictPop d1 "budget_min") "budget_max")
      "budget_fixed")
  else
    Except.error "Input Parsing Failed: channel_preference invalid"

/-- Integer field lookup with default, as `cleaned_input.get('budget', 0)`. -/
def dictGetInt (l : List (String × PyVal)) (k : String) (dflt : Int) : Int :=
  match pyDictGetD l k PyVal.vnone with
  | PyVal.i n => n
  | _ => dflt

/-! ### Step 8 — Budget Allocator (`components/step_8_budget_allocator.py`)

The `previous_results` dict is modelled by its only consulted field: `some
summary` when the dict is truthy and has key `"previous_campaign_summary"`,
`none` otherwise. -/

/-- High-ROI channel detection: when the summary mentions
`"highest Conversion Rate"`, take the last word of the text before the first
occurrence of `" had the highest Conversion Rate"` (the whole summary when
that longer phrase is absent) and return the first recommended channel
containing it as a substring. -/
def findHighROI (prev : Option String) (channels : List String) :
    Option String :=
  match prev with
  | none => none
  | some summary =>
    if strContains summary "highest Conversion Rate" then
      let before := strPrefixBefore summary " had the highest Conversion Rate"
      match (strWords before).getLast? with
      | none => none
      | some potential => channels.find? (fun rc => strContains rc potential)
    else none

/-- Initial equal split with remainder distribution: channel at index `i`
receives `base + 1` when `i < rem`, else `base`; later duplicate channel
names overwrite earlier dict entries, as in Python. -/
def initSplit (base rem : Int) : Nat → List String →
    List (String × Int) → List (String × Int)
  | _, [], acc => acc
  | i, ch :: rest, acc =>
    initSplit base rem (i + 1) rest
      (pyDictSet acc ch (base + if (i : Int) < rem then 1 else 0))

/-- Reduction loop: for each non-boosted channel, take
`min(int(boost * (alloc / totalOther)), int(alloc * 0.3))`, recording the
reduction in a dict and accumulating the running total
`actual_boost_taken`.  Float expressions are modelled as exact rationals
truncated toward zero. -/
def buildReductions (alloc : List (String × Int)) (boost totalOther : Int)
    (hi : String) : List String → List (String × Int) × Int →
    List (String × Int) × Int
  | [], st => st
  | ch :: rest, (red, actual) =>
    if ch = hi then buildReductions alloc boost totalOther hi rest (red, actual)
    else
      let a := pyDictGetD alloc ch 0
      let r := min (Int.tdiv (boost * a) totalOther) (Int.tdiv (a * 3) 10)
      buildReductions alloc boost totalOther hi rest
        (pyDictSet red ch r, actual + r)

/-- Apply the recorded reductions: `adjusted[channel] -= reduction` for each
entry of the reductions dict. -/
def applyReductions (alloc red : List (String × Int)) : List (String × Int) :=
  red.foldl (fun a p => pyDictSet a p.1 (pyDictGetD a p.1 0 - p.2)) alloc

/-- Boost phase of `allocate_budget` (lines 46–70 of the source): reward the
high-ROI channel by `min(base // 2, int(alloc * 0.2))`, funded by capped
proportional reductions of the other channels, applied only when some
reduction was actually collected. -/
def applyBoost (total base : Int) (alloc : List (String × Int))
    (channels : List String) (hi : Option String) : List (String × Int) :=
  match hi with
  | none => alloc
  | some h =>
    if pyDictHasKey alloc h ∧ 1 < channels.length then
      let maxBoost := Int.fdiv base 2
      let hiVal := pyDictGetD alloc h 0
      let intended := Int.tdiv hiVal 5
      let boost := min maxBoost intended
      let totalOther := total - hiVal
      if 0 < totalOther then
        let st := buildReductions alloc boost totalOther h channels ([], 0)
        if 0 < st.2 then
          applyReductions (pyDictSet alloc h (hiVal + st.2)) st.1
        else alloc
      else alloc
    else alloc

/-- Exact-sum correction (lines 72–79 and 85–89): when the dict is non-empty
and its values do not sum to `total`, add the whole difference to the first
key holding the largest allocation. -/
def fixDiff (total : Int) (l : List (String × Int)) : List (String × Int) :=
  let diff := total - sumVals l
  if diff = 0 ∨ l = [] then l
  else
    match maxEntry l with
    | none => l
    | some (k, v) => pyDictSet l k (v + diff)

/-- Clamp negative allocations to zero (lines 81–83). -/
def clampNeg (l : List (String × Int)) : List (String × Int) :=
  l.map (fun p => (p.1, if p.2 < 0 then 0 else p.2))

/-- Model of `allocate_budget`: equal base split with remainder, optional
high-ROI boost, exact-sum correction, negative clamp, and a second
correction; returns the `budget_split` dict. -/
def allocate_budget (total : Int) (channels : List String)
    (prev : Option String) : List (String × Int) :=
  let n := channels.length
  if n = 0 ∨ total ≤ 0 then []
  else
    let hi := findHighROI prev channels
    let base := Int.fdiv total n
    let rem := Int.fmod total n
    let alloc0 := initSplit base rem 0 channels []
    let alloc1 := applyBoost total base alloc0 channels hi
    let alloc2 := fixDiff total alloc1
    let alloc3 := clampNeg alloc2
    fixDiff total alloc3

/-! ### Step 7 — Strategy Recommender (`components/step_7_strategy_recommender.py`)

The generation call is an external collaborator; its result is an input to
the deterministic post-processing embedded here. -/

/-- Structured result of the strategy generation call. -/
structure StrategyRaw where
  recommended_channels : List String
  budget_split : List (String × Int)
  campaign_angle : String
  justification : String
  deriving DecidableEq, Repr

/-- Budget-split correction (lines 109–129 of the source): when the split is
non-empty and off by `diff ≠ 0`, add the whole `diff` to the first largest
key; if that key then holds a negative value, fall back to an equal
re-split over `recommended_channels`. -/
def correct_budget_split (total : Int) (raw : List (String × Int))
    (recommended : List String) : List (String × Int) :=
  if raw.isEmpty then raw
  else
    let diff := total - sumVals raw
    if diff = 0 then raw
    else
      match maxEntry raw with
      | none => raw
      | some (k, v) =>
        if v + diff < 0 then
          initSplit (Int.fdiv total recommended.length)
            (Int.fmod total recommended.length) 0 recommended []
        else pyDictSet raw k (v + diff)

/-- Model of `generate_strategy`: pass a collaborator failure through as the
error object, otherwise apply the budget-split correction to the generated
result. -/
def generate_strategy (llm : Except String StrategyRaw) (total : Int) :
    Except String StrategyRaw :=
  match llm with
  | Except.error d => Except.error d
  | Except.ok r =>
    Except.ok { r with
      budget_split := correct_budget_split total r.budget_split
        r.recommended_channels }

/-! ### Step 9 and aggregation key derivations -/

/-- Field-name derivation of the Creative Writer
(`step_9_creative_writer.py`, line 37): lowercase, spaces and hyphens to
underscore, ampersand to `and`, periods removed, suffixed `_copy`. -/
def creativeKey (channel : String) : String :=
  String.mk (replaceChar '.' []
    (replaceChar '&' ['a', 'n', 'd']
      (replaceChar '-' ['_']
        (replaceChar ' ' ['_'] (channel.toList.map Char.toLower))))) ++ "_copy"

/-- Copy-lookup key recomputed by the aggregation loop (`main.py`,
line 155): lowercase, spaces and hyphens to underscore, suffixed `_copy`. -/
def aggKey (channel : String) : String :=
  String.mk (replaceChar '-' ['_']
    (replaceChar ' ' ['_'] (channel.toList.map Char.toLower))) ++ "_copy"

/-! ### Pipeline driver (`main.py`, `run_pipeline`) -/

/-- Names of the pipeline steps, recorded as they execute. -/
inductive StepName where
  | parse | entities | history | trends | context | persona
  | strategy | allocator | creative | visual | aggregate
  deriving DecidableEq, Repr

/-- Per-channel entry of the final plan (the `channel_rec` dict built in the
aggregation loop, with its nested literal fields flattened). -/
structure ChannelRec where
  channel_name : String
  allocated_budget : Int
  suggested_copy : String
  visual_prompt : String
  call_to_action : String
  tracking_type : String
  deriving DecidableEq, Repr

/-- Final plan (`final_plan` dict; the persona object is carried opaquely as
a string). -/
structure CampaignPlan where
  suggested_theme_name : String
  strategic_angle : String
  primary_target_audience : String
  timing_recommendation : String
  competitor_note : String
  channel_recommendations : List ChannelRec
  feedback_loop_note : String
  deriving DecidableEq, Repr

/-- Results of the collaborator calls consumed by one pipeline run: the
soft-degradable steps resolved to the strings the driver reads, and the
four fatal generative steps as error-or-value. -/
structure PipelineEnv where
  previous_summary : Option String
  timing_recommendation : String
  competitor_summary : String
  persona : Except String String
  strategyLLM : Except String StrategyRaw
  creative : Except String (List (String × String))
  visual : Except String (List String)
  deriving Repr

/-- Aggregation loop body (`main.py`, lines 154–172): one channel entry,
with the budget looked up in the supplied split, the copy looked up under
the recomputed key, the first visual prompt shared by every channel, and
the tracking type derived from the channel name. -/
def buildChannelRec (budget_split : List (String × Int))
    (channel_copy : List (String × String)) (visual_prompts : List String)
    (channel : String) : ChannelRec :=
  { channel_name := channel
    allocated_budget := pyDictGetD budget_split channel 0
    suggested_copy := pyDictGetD channel_copy (aggKey channel) "N/A"
    visual_prompt := visual_prompts.headD "No visual prompt generated."
    call_to_action := "Engage via " ++ channel ++ "!"
    tracking_type :=
      if strContains channel "Ads" || strContains channel "Online" then "link"
      else "qr_code" }

/-- Model of `run_pipeline`: the strict step order of `main.py`, recording
each executed step and stopping at the first fatal error.  The budget
passed to the allocator is `cleaned_input.get('budget', 0)` and the split
used in the aggregation loop is the one derived from the allocator's
result (line 116 of the source). -/
def run_pipeline (env : PipelineEnv) (raw : RawRequest) :
    List StepName × Except String CampaignPlan :=
  match parse_input raw with
  | Except.error e => ([StepName.parse], Except.error e)
  | Except.ok cleaned =>
    let log0 := [StepName.parse, StepName.entities, StepName.history,
      StepName.trends, StepName.context, StepName.persona]
    match env.persona with
    | Except.error d =>
      (log0, Except.error ("Persona Generation Failed: " ++ d))
    | Except.ok persona =>
      let log1 := log0 ++ [StepName.strategy]
      let budget := dictGetInt cleaned "budget" 0
      match generate_strategy env.strategyLLM budget with
      | Except.error d =>
        (log1, Except.error ("Strategy Generation Failed: " ++ d))
      | Except.ok strat =>
        let log2 := log1 ++ [StepName.allocator]
        let channels := strat.recommended_channels
        let budget_split := allocate_budget budget channels env.previous_summary
        let log3 := log2 ++ [StepName.creative]
        match env.creative with
        | Except.error d =>
          (log3, Except.error ("Creative Generation Failed: " ++ d))
        | Except.ok channel_copy =>
          let log4 := log3 ++ [StepName.visual]
          match env.visual with
          | Except.error d =>
            (log4, Except.error ("Visual Prompt Generation Failed: " ++ d))
          | Except.ok visual_prompts =>
            let log5 := log4 ++ [StepName.aggregate]
            let plan : CampaignPlan :=
              { suggested_theme_name := strat.campaign_angle
                strategic_angle := strat.campaign_angle
                primary_target_audience := persona
                timing_recommendation := env.timing_recommendation
                competitor_note := env.competitor_summary
                channel_recommendations := channels.map
                  (buildChannelRec budget_split channel_copy visual_prompts)
                feedback_loop_note :=
                  env.previous_summary.getD "No past data used." }
            (log5, Except.ok plan)

/-! ### Supporting lemmas on the string helpers -/

theorem toNat_ofNat_valid {n : Nat} (h : n.isValidChar) :
    (Char.ofNat n).toNat = n := by
  rw [Char.ofNat, dif_pos h]
  simp [Char.ofNatAux, Char.toNat, UInt32.toNat, BitVec.toNat_ofNatLt]

/-- Characters below code point 97 are fixed points of the preimage of
ASCII lowering: `toLower c = d` with `d.toNat < 97` forces `c = d`. -/
theorem toLower_eq_low {c d : Char} (hd : d.toNat < 97)
    (h : Char.toLower c = d) : c = d := by
  rw [Char.toLower] at h
  split at h
  · rename_i hr
    exfalso
    have hv : (c.toNat + 32).isValidChar := by
      left
      have := hr.2
      omega
    have h2 := congrArg Char.toNat h
    rw [toNat_ofNat_valid hv] at h2
    omega
  · exact h

theorem replaceChar_eq_self {a : Char} {r l : List Char} (h : a ∉ l) :
    replaceChar a r l = l := by
  induction l with
  | nil => rfl
  | cons c cs ih =>
    rw [replaceChar]
    rw [if_neg (by rintro rfl; exact h (List.mem_cons_self c cs))]
    rw [ih (fun hm => h (List.mem_cons_of_mem c hm))]
    rfl

theorem mem_of_mem_replaceChar {a c : Char} {r l : List Char}
    (h : c ∈ replaceChar a r l) : c ∈ r ∨ c ∈ l := by
  induction l with
  | nil => exact absurd h (List.not_mem_nil c)
  | cons x xs ih =>
    rw [replaceChar, List.mem_append] at h
    rcases h with h | h
    · split at h
      · exact Or.inl h
      · have hcx : c = x := List.mem_singleton.mp h
        subst hcx
        exact Or.inr (List.mem_cons_self c xs)
    · rcases ih h with h' | h'
      · exact Or.inl h'
      · exact Or.inr (List.mem_cons_of_mem x h')

theorem not_mem_map_toLower {d : Char} (hd : d.toNat < 97) {l : List Char}
    (h : d ∉ l) : d ∉ l.map Char.toLower := by
  intro hm
  rcases List.mem_map.mp hm with ⟨c, hc, hlow⟩
  exact h (toLower_eq_low hd hlow ▸ hc)

/-! ### Claim C3 — the two copy-key derivations -/

/-- Claim C3 counterexample: the Creative Writer's field key and the
aggregation loop's recomputed lookup key differ on the channel name
`"A&B"` (the aggregation loop omits the ampersand and period rules), so
the two derivation functions are not extensionally equal. -/
theorem aggKey_ne_creativeKey_on_ampersand :
    aggKey "A&B" = "a&b_copy" ∧ creativeKey "A&B" = "aandb_copy" ∧
      aggKey "A&B" ≠ creativeKey "A&B" := by
  refine ⟨by decide, by decide, by decide⟩

/-- Claim C3 (amended): for every channel-name string containing neither an
ampersand nor a period, the copy-lookup key recomputed by the Aggregator
equals the field key derived by the Creative Writer; the two derivations
differ only through the ampersand and period rules, which the Aggregator
omits. -/
theorem aggKey_eq_creativeKey_of_no_amp_dot (ch : String)
    (h1 : '&' ∉ ch.toList) (h2 : '.' ∉ ch.toList) :
    aggKey ch = creativeKey ch := by
  rw [aggKey, creativeKey]
  have hl1 : '&' ∉ ch.toList.map Char.toLower :=
    not_mem_map_toLower (by decide) h1
  have hl2 : '.' ∉ ch.toList.map Char.toLower :=
    not_mem_map_toLower (by decide) h2
  have hs1 : '&' ∉ replaceChar ' ' ['_'] (ch.toList.map Char.toLower) := by
    intro hm
    rcases mem_of_mem_replaceChar hm with h | h
    · exact absurd (List.mem_singleton.mp h) (by decide)
    · exact hl1 h
  have hs2 : '.' ∉ replaceChar ' ' ['_'] (ch.toList.map Char.toLower) := by
    intro hm
    rcases mem_of_mem_replaceChar hm with h | h
    · exact absurd (List.mem_singleton.mp h) (by decide)
    · exact hl2 h
  have hd1 : '&' ∉ replaceChar '-' ['_']
      (replaceChar ' ' ['_'] (ch.toList.map Char.toLower)) := by
    intro hm
    rcases mem_of_mem_replaceChar hm with h | h
    · exact absurd (List.mem_singleton.mp h) (by decide)
    · exact hs1 h
  have hd2 : '.' ∉ replaceChar '-' ['_']
      (replaceChar ' ' ['_'] (ch.toList.map Char.toLower)) := by
    intro hm
    rcases mem_of_mem_replaceChar hm with h | h
    · exact absurd (List.mem_singleton.mp h) (by decide)
    · exact hs2 h
  rw [replaceChar_eq_self hd1]
  have hd2' : '.' ∉ replaceChar '&' ['a', 'n', 'd'] (replaceChar '-' ['_']
      (replaceChar ' ' ['_'] (ch.toList.map Char.toLower))) := by
    rw [replaceChar_eq_self hd1]
    exact hd2
  rw [replaceChar_eq_self hd1] at hd2'
  rw [replaceChar_eq_self hd2]

/-- Witness for the amended claim C3 at the concrete channel name
`"Facebook Local Ads"`. -/
theorem aggKey_eq_creativeKey_witness :
    '&' ∉ "Facebook Local Ads".toList ∧ '.' ∉ "Facebook Local Ads".toList ∧
      aggKey "Facebook Local Ads" = creativeKey "Facebook Local Ads" :=
  ⟨by decide, by decide,
    aggKey_eq_creativeKey_of_no_amp_dot "Facebook Local Ads" (by decide)
      (by decide)⟩

/-! ### Claims C7, C8, C9 — the Input Parser -/

instance {ε α : Type} [DecidableEq ε] [DecidableEq α] :
    DecidableEq (Except ε α) := fun a b =>
  match a, b with
  | Except.error x, Except.error y =>
    if h : x = y then isTrue (by rw [h])
    else isFalse (by intro hh; cases hh; exact h rfl)
  | Except.ok x, Except.ok y =>
    if h : x = y then isTrue (by rw [h])
    else isFalse (by intro hh; cases hh; exact h rfl)
  | Except.error _, Except.ok _ => isFalse (by intro hh; cases hh)
  | Except.ok _, Except.error _ => isFalse (by intro hh; cases hh)

/-- Successful parses produce exactly the cleaned dict: string fields in
declaration order with the three raw budget fields removed and the
resolved `budget` appended. -/
theorem parse_input_ok_eq (r : RawRequest)
    (hok : check_channel_preference r.channel_preference = true) :
    parse_input r = Except.ok
      [("business_type", PyVal.s r.business_type),
       ("location", PyVal.s r.location),
       ("goal_description", PyVal.s r.goal_description),
       ("channel_preference", PyVal.s r.channel_preference),
       ("user_id", PyVal.s r.user_id),
       ("budget", PyVal.i (resolveBudget r))] := by
  rw [parse_input, if_pos hok]
  simp [rawDict, pyDictSet, pyDictPop]

/-- Claim C7 counterexample: the enum value `"AIRecommend"` named by the
spec is rejected by the validator (all other required fields present and
well-typed), because the source spells the fourth allowed value
`"AI Recommend"`. -/
theorem parse_input_rejects_AIRecommend :
    parse_input
      { business_type := "cafe", location := "Pune",
        goal_description := "Diwali discount sale", budget_min := none,
        budget_max := none, budget_fixed := some 6000,
        channel_preference := "AIRecommend", user_id := "user123" } =
      Except.error "Input Parsing Failed: channel_preference invalid" := by
  rfl

/-- Claim C7 (amended): `parse_input` fails with a validation error exactly
when `channel_preference` is not one of the four allowed values `"Online"`,
`"Offline"`, `"Both"`, `"AI Recommend"` (the fourth value contains a
space); any of those four is accepted. -/
theorem parse_input_error_iff_bad_preference (r : RawRequest) :
    (∃ e, parse_input r = Except.error e) ↔
      ¬(r.channel_preference = "Online" ∨ r.channel_preference = "Offline" ∨
        r.channel_preference = "Both" ∨
        r.channel_preference = "AI Recommend") := by
  have hmem : check_channel_preference r.channel_preference = true ↔
      (r.channel_preference = "Online" ∨ r.channel_preference = "Offline" ∨
        r.channel_preference = "Both" ∨
        r.channel_preference = "AI Recommend") := by
    rw [check_channel_preference, allowedPreferences]
    simp
  by_cases h : check_channel_preference r.channel_preference = true
  · rw [parse_input, if_pos h]
    constructor
    · rintro ⟨e, he⟩
      cases he
    · intro hcon
      exact absurd (hmem.mp h) hcon
  · rw [parse_input, if_neg h]
    constructor
    · intro _
      intro hor
      exact h (hmem.mpr hor)
    · intro _
      exact ⟨"Input Parsing Failed: channel_preference invalid", rfl⟩

/-- Claim C8: for every accepted raw request, `parse_input` resolves the
single `budget` value by the priority fixed, then the integer floor of
`(min + max) / 2` when both bounds are present, then `min` alone, then the
default constant 5000, and the three raw budget fields are absent from the
returned map. -/
theorem parse_input_budget_priority (r : RawRequest)
    (d : List (String × PyVal)) (h : parse_input r = Except.ok d) :
    pyDictGetD d "budget" PyVal.vnone = PyVal.i
      (match r.budget_fixed, r.budget_min, r.budget_max with
        | some b, _, _ => b
        | none, some lo, some hi => Int.fdiv (lo + hi) 2
        | none, some lo, none => lo
        | none, none, _ => 5000) ∧
    pyDictHasKey d "budget_min" = false ∧
    pyDictHasKey d "budget_max" = false ∧
    pyDictHasKey d "budget_fixed" = false := by
  have hok : check_channel_preference r.channel_preference = true := by
    by_contra hno
    rw [parse_input, if_neg hno] at h
    cases h
  rw [parse_input_ok_eq r hok] at h
  cases h
  refine ⟨?_, by simp [pyDictHasKey], by simp [pyDictHasKey],
    by simp [pyDictHasKey]⟩
  have hbv : pyDictGetD
      [("business_type", PyVal.s r.business_type),
       ("location", PyVal.s r.location),
       ("goal_description", PyVal.s r.goal_description),
       ("channel_preference", PyVal.s r.channel_preference),
       ("user_id", PyVal.s r.user_id),
       ("budget", PyVal.i (resolveBudget r))] "budget" PyVal.vnone =
      PyVal.i (resolveBudget r) := by
    simp [pyDictGetD]
  rw [hbv, resolveBudget]
  rcases r.budget_fixed with _ | b
  · rcases r.budget_min with _ | lo <;> rcases r.budget_max with _ | hi <;> rfl
  · rfl

/-- Witness for claim C8 at a concrete request carrying both bounds: the
resolved budget is the floor average 2000 and the raw fields are gone. -/
theorem parse_input_budget_priority_witness :
    parse_input
      { business_type := "cafe", location := "Pune",
        goal_description := "g", budget_min := some 1000,
        budget_max := some 3000, budget_fixed := none,
        channel_preference := "Both", user_id := "u" } =
      Except.ok
        [("business_type", PyVal.s "cafe"), ("location", PyVal.s "Pune"),
         ("goal_description", PyVal.s "g"),
         ("channel_preference", PyVal.s "Both"), ("user_id", PyVal.s "u"),
         ("budget", PyVal.i 2000)] ∧
    pyDictGetD
        [("business_type", PyVal.s "cafe"), ("location", PyVal.s "Pune"),
         ("goal_description", PyVal.s "g"),
         ("channel_preference", PyVal.s "Both"), ("user_id", PyVal.s "u"),
         ("budget", PyVal.i 2000)] "budget" PyVal.vnone = PyVal.i 2000 ∧
    pyDictHasKey
        [("business_type", PyVal.s "cafe"), ("location", PyVal.s "Pune"),
         ("goal_description", PyVal.s "g"),
         ("channel_preference", PyVal.s "Both"), ("user_id", PyVal.s "u"),
         ("budget", PyVal.i 2000)] "budget_min" = false := by
  have h := parse_input_budget_priority
    { business_type := "cafe", location := "Pune",
      goal_description := "g", budget_min := some 1000,
      budget_max := some 3000, budget_fixed := none,
      channel_preference := "Both", user_id := "u" }
    [("business_type", PyVal.s "cafe"), ("location", PyVal.s "Pune"),
     ("goal_description", PyVal.s "g"),
     ("channel_preference", PyVal.s "Both"), ("user_id", PyVal.s "u"),
     ("budget", PyVal.i 2000)] (by rfl)
  exact ⟨by rfl, h.1, h.2.1⟩

/-- Claim C9 counterexample: the raw request with `budget_fixed = -100` and
a valid channel preference is accepted, and the resolved `budget` field is
the negative integer `-100`. -/
theorem parse_input_accepts_negative_budget :
    parse_input
      { business_type := "cafe", location := "Pune",
        goal_description := "g", budget_min := none, budget_max := none,
        budget_fixed := some (-100), channel_preference := "Both",
        user_id := "u" } =
      Except.ok
        [("business_type", PyVal.s "cafe"), ("location", PyVal.s "Pune"),
         ("goal_description", PyVal.s "g"),
         ("channel_preference", PyVal.s "Both"), ("user_id", PyVal.s "u"),
         ("budget", PyVal.i (-100))] ∧ (-100 : Int) < 0 := by
  exact ⟨by rfl, by decide⟩

/-- Claim C9 (amended): for every accepted raw request whose supplied
budget fields are all non-negative, the resolved `budget` field of the
returned map is a non-negative integer (the code never checks the sign of
the supplied figures, so a negative input propagates). -/
theorem parse_input_budget_nonneg (r : RawRequest)
    (d : List (String × PyVal)) (h : parse_input r = Except.ok d)
    (hf : ∀ b ∈ r.budget_fixed, 0 ≤ b) (hlo : ∀ b ∈ r.budget_min, 0 ≤ b)
    (hhi : ∀ b ∈ r.budget_max, 0 ≤ b) :
    ∃ n : Int, pyDictGetD d "budget" PyVal.vnone = PyVal.i n ∧ 0 ≤ n := by
  have hok : check_channel_preference r.channel_preference = true := by
    by_contra hno
    rw [parse_input, if_neg hno] at h
    cases h
  rw [parse_input_ok_eq r hok] at h
  cases h
  refine ⟨resolveBudget r, ?_, ?_⟩
  · simp [pyDictGetD]
  · rw [resolveBudget]
    rcases hrf : r.budget_fixed with _ | b
    · rcases hrlo : r.budget_min with _ | lo
      · simp
      · rcases hrhi : r.budget_max with _ | hi
        · exact hlo lo hrlo
        · have h1 := hlo lo hrlo
          have h2 := hhi hi hrhi
          simp only []
          exact Int.fdiv_nonneg (by omega) (by omega)
    · exact hf b hrf

/-- Witness for the amended claim C9 at a concrete request with
non-negative bounds. -/
theorem parse_input_budget_nonneg_witness :
    ∃ n : Int,
      pyDictGetD
        [("business_type", PyVal.s "cafe"), ("location", PyVal.s "Pune"),
         ("goal_description", PyVal.s "g"),
         ("channel_preference", PyVal.s "Both"), ("user_id", PyVal.s "u"),
         ("budget", PyVal.i 2000)] "budget" PyVal.vnone = PyVal.i n ∧
        0 ≤ n := by
  exact parse_input_budget_nonneg
    { business_type := "cafe", location := "Pune", goal_description := "g",
      budget_min := some 1000, budget_max := some 3000, budget_fixed := none,
      channel_preference := "Both", user_id := "u" }
    [("business_type", PyVal.s "cafe"), ("location", PyVal.s "Pune"),
     ("goal_description", PyVal.s "g"),
     ("channel_preference", PyVal.s "Both"), ("user_id", PyVal.s "u"),
     ("budget", PyVal.i 2000)] (by rfl)
    (by simp) (by intro b hb; cases hb; decide)
    (by intro b hb; cases hb; decide)

/-! ### Lemmas on sums, `maxEntry` and `pyDictSet` -/

theorem sumVals_nil : sumVals [] = 0 := rfl

theorem sumVals_cons (p : String × Int) (l : List (String × Int)) :
    sumVals (p :: l) = p.2 + sumVals l := by
  simp [sumVals]

theorem sumVals_append (l1 l2 : List (String × Int)) :
    sumVals (l1 ++ l2) = sumVals l1 + sumVals l2 := by
  simp [sumVals]

theorem maxEntry_eq_none {l : List (String × Int)} (h : maxEntry l = none) :
    l = [] := by
  cases l with
  | nil => rfl
  | cons p rest =>
    rw [maxEntry] at h
    rcases p with ⟨k, v⟩
    cases hr : maxEntry rest with
    | none => rw [hr] at h; cases h
    | some q =>
      rw [hr] at h
      by_cases hc : q.2 > v
      · simp [hc] at h
      · simp [hc] at h

/-- Specification of `maxEntry`: it returns an entry of the list holding a
maximal value, and every entry strictly before it holds a strictly smaller
value (Python `max` keeps the earliest maximum). -/
theorem maxEntry_spec :
    ∀ (l : List (String × Int)) (k : String) (v : Int),
      maxEntry l = some (k, v) →
      (∃ l1 l2, l = l1 ++ (k, v) :: l2 ∧ ∀ p ∈ l1, p.2 < v) ∧
        ∀ p ∈ l, p.2 ≤ v := by
  intro l
  induction l with
  | nil => intro k v h; cases h
  | cons p rest ih =>
    intro k v h
    rcases p with ⟨k0, v0⟩
    rw [maxEntry] at h
    cases hr : maxEntry rest with
    | none =>
      rw [hr] at h
      dsimp only at h
      have hrest : rest = [] := maxEntry_eq_none hr
      subst hrest
      cases h
      refine ⟨⟨[], [], rfl, by simp⟩, ?_⟩
      intro p hp
      rcases List.mem_singleton.mp hp with rfl
      exact le_refl _
    | some q =>
      rw [hr] at h
      rcases q with ⟨k', v'⟩
      dsimp only at h
      by_cases hc : v' > v0
      · rw [if_pos hc] at h
        cases h
        rcases ih k v hr with ⟨⟨l1, l2, hsplit, hlt⟩, hub⟩
        refine ⟨⟨(k0, v0) :: l1, l2, by rw [hsplit, List.cons_append], ?_⟩, ?_⟩
        · intro p hp
          rcases List.mem_cons.mp hp with rfl | hp'
          · exact hc
          · exact hlt p hp'
        · intro p hp
          rcases List.mem_cons.mp hp with rfl | hp'
          · exact le_of_lt hc
          · exact hub p hp'
      · rw [if_neg hc] at h
        cases h
        rcases ih k' v' hr with ⟨_, hub⟩
        refine ⟨⟨[], rest, rfl, by simp⟩, ?_⟩
        intro p hp
        rcases List.mem_cons.mp hp with rfl | hp'
        · exact le_refl _
        · exact le_trans (hub p hp') (not_lt.mp hc)

/-- Updating a key that first occurs after the prefix `l1` rewrites exactly
that occurrence. -/
theorem pyDictSet_append_not_mem {l1 l2 : List (String × Int)} {k : String}
    {v w : Int} (h : k ∉ dKeys l1) :
    pyDictSet (l1 ++ (k, v) :: l2) k w = l1 ++ (k, w) :: l2 := by
  induction l1 with
  | nil => simp [pyDictSet]
  | cons p rest ih =>
    rcases p with ⟨k0, v0⟩
    have hk0 : k0 ≠ k := by
      intro hh
      exact h (by simp [dKeys, hh])
    have hrest : k ∉ dKeys rest := by
      intro hh
      exact h (by simp [dKeys] at hh ⊢; exact Or.inr hh)
    simp only [List.cons_append, pyDictSet, if_neg hk0, List.append_eq]
    rw [ih hrest]

/-! ### Claim C4 — Strategy Recommender budget-split correction -/

/-- Claim C4 counterexample: with raw split `{A: 3000, B: 2900}`, total
budget 100 and recommended channels `[A, B]`, the difference `-5800` would
drive the largest channel negative, so the code replaces the whole split by
an equal re-split `{A: 50, B: 50}` instead of adding the entire difference
to the largest channel as the claim states. -/
theorem correct_budget_split_fallback_counterexample :
    sumVals [("A", 3000), ("B", 2900)] = 5900 ∧
    correct_budget_split 100 [("A", 3000), ("B", 2900)] ["A", "B"] =
      [("A", 50), ("B", 50)] ∧
    pyDictGetD
      (correct_budget_split 100 [("A", 3000), ("B", 2900)] ["A", "B"])
      "A" 0 ≠ 3000 + (100 - 5900) := by
  refine ⟨by decide, by decide, by decide⟩

/-- Claim C4 (amended): whenever `diff = total_budget - sum(raw_split)` is
nonzero and adding it to the channel currently holding the largest
allocation (ties broken by first-encountered in iteration order) leaves
that channel non-negative, the entire `diff` is added to that channel and
the corrected split sums exactly to `total_budget`; when the addition would
drive that channel negative, the split is instead replaced by an equal
re-split over the recommended channels.  In particular, the raw split
`{A: 1000, B: 1000}` with total 2500 puts the full 500 on first-listed
`A`. -/
theorem correct_budget_split_adds_diff (total : Int)
    (raw : List (String × Int)) (rec : List String) (k : String) (v : Int)
    (hne : raw ≠ []) (hnd : (dKeys raw).Nodup)
    (hmax : maxEntry raw = some (k, v))
    (hdiff : total - sumVals raw ≠ 0)
    (hnn : 0 ≤ v + (total - sumVals raw)) :
    correct_budget_split total raw rec =
      pyDictSet raw k (v + (total - sumVals raw)) ∧
    sumVals (correct_budget_split total raw rec) = total ∧
    (∀ p ∈ raw, p.2 ≤ v) ∧
    (∃ l1 l2, raw = l1 ++ (k, v) :: l2 ∧ ∀ p ∈ l1, p.2 < v) := by
  rcases maxEntry_spec raw k v hmax with ⟨⟨l1, l2, hsplit, hlt⟩, hub⟩
  have hk1 : k ∉ dKeys l1 := by
    intro hk
    rw [hsplit] at hnd
    simp only [dKeys, List.map_append, List.map_cons] at hnd
    exact (List.disjoint_of_nodup_append hnd) hk (List.mem_cons_self _ _)
  have heq : correct_budget_split total raw rec =
      pyDictSet raw k (v + (total - sumVals raw)) := by
    rw [correct_budget_split]
    rw [if_neg (by simp [List.isEmpty_iff, hne])]
    simp only [hmax]
    rw [if_neg hdiff, if_neg (by omega)]
  have hsum : sumVals (pyDictSet raw k (v + (total - sumVals raw))) =
      total := by
    rw [hsplit, pyDictSet_append_not_mem hk1]
    rw [sumVals_append, sumVals_cons, sumVals_append, sumVals_cons]
    ring
  exact ⟨heq, by rw [heq]; exact hsum, hub, ⟨l1, l2, hsplit, hlt⟩⟩

/-- Witness for the amended claim C4 at the claim's own example: raw split
`{A: 1000, B: 1000}`, total 2500; the tie goes to first-listed `A`, which
receives the full 500, and the result sums to 2500. -/
theorem correct_budget_split_adds_diff_witness :
    maxEntry [("A", 1000), ("B", 1000)] = some ("A", 1000) ∧
    correct_budget_split 2500 [("A", 1000), ("B", 1000)] ["A", "B"] =
      [("A", 1500), ("B", 1000)] ∧
    sumVals (correct_budget_split 2500 [("A", 1000), ("B", 1000)]
      ["A", "B"]) = 2500 := by
  have h := correct_budget_split_adds_diff 2500 [("A", 1000), ("B", 1000)]
    ["A", "B"] "A" 1000 (by decide) (by decide) (by decide) (by decide)
    (by decide)
  refine ⟨by decide, ?_, h.2.1⟩
  rw [h.1]
  decide

/-! ### Claims C2, C5, C10 — pipeline wiring -/

/-- Channel recommendations of a pipeline result (empty on failure). -/
def planRecsOf : Except String CampaignPlan → List ChannelRec
  | Except.ok p => p.channel_recommendations
  | Except.error _ => []

/-- Concrete fixture: a well-formed raw request with a fixed budget. -/
def rawOk : RawRequest :=
  { business_type := "cafe", location := "Pune",
    goal_description := "Diwali discount sale", budget_min := none,
    budget_max := none, budget_fixed := some 6000,
    channel_preference := "Both", user_id := "u1" }

/-- Concrete fixture: the cleaned dict `parse_input rawOk` produces. -/
def cleanedOk : List (String × PyVal) :=
  [("business_type", PyVal.s "cafe"), ("location", PyVal.s "Pune"),
   ("goal_description", PyVal.s "Diwali discount sale"),
   ("channel_preference", PyVal.s "Both"), ("user_id", PyVal.s "u1"),
   ("budget", PyVal.i 6000)]

/-- Concrete fixture: a generated strategy whose split already sums to the
budget but differs from the equal split the independent Allocator makes. -/
def stratOk : StrategyRaw :=
  { recommended_channels := ["Facebook Ads", "Pamphlets"],
    budget_split := [("Facebook Ads", 4000), ("Pamphlets", 2000)],
    campaign_angle := "Festive Value", justification := "j" }

/-- Concrete fixture: collaborator results for a fully successful run. -/
def envOk : PipelineEnv :=
  { previous_summary := none, timing_recommendation := "Soon",
    competitor_summary := "Few", persona := Except.ok "persona",
    strategyLLM := Except.ok stratOk,
    creative := Except.ok
      [("facebook_ads_copy", "FB copy"), ("pamphlets_copy", "P copy")],
    visual := Except.ok ["V1", "V2"] }

/-- Claim C2 counterexample: on a concrete successful run the assembled
plan's allocated budgets are the independent Allocator's equal split
(3000/3000), not the Strategy Recommender's corrected split (4000/2000);
the wiring reads the Allocator's result, so the claim's source is wrong. -/
theorem plan_budget_not_from_strategy :
    (planRecsOf (run_pipeline envOk rawOk).2).map
        (fun r => (r.channel_name, r.allocated_budget)) =
      [("Facebook Ads", 3000), ("Pamphlets", 3000)] ∧
    generate_strategy envOk.strategyLLM 6000 = Except.ok stratOk ∧
    allocate_budget 6000 ["Facebook Ads", "Pamphlets"] none =
      [("Facebook Ads", 3000), ("Pamphlets", 3000)] ∧
    pyDictGetD stratOk.budget_split "Facebook Ads" 0 ≠ (3000 : Int) := by
  refine ⟨by decide, by decide, by decide, by decide⟩

/-- Claim C2 (amended): in the assembled CampaignPlan, each recommended
channel's allocated_budget is looked up from the independent Budget
Allocator's split computed over the Strategy's recommended channels — the
Allocator is on the primary flow, and the Strategy Recommender's corrected
split is the path not consulted by the aggregation loop. -/
theorem plan_budgets_from_allocator (env : PipelineEnv) (raw : RawRequest)
    (cleaned : List (String × PyVal)) (p : String) (strat : StrategyRaw)
    (cc : List (String × String)) (vp : List String)
    (hparse : parse_input raw = Except.ok cleaned)
    (hpersona : env.persona = Except.ok p)
    (hstrat : generate_strategy env.strategyLLM
      (dictGetInt cleaned "budget" 0) = Except.ok strat)
    (hcc : env.creative = Except.ok cc) (hvp : env.visual = Except.ok vp) :
    ∀ r ∈ planRecsOf (run_pipeline env raw).2,
      r.allocated_budget = pyDictGetD
        (allocate_budget (dictGetInt cleaned "budget" 0)
          strat.recommended_channels env.previous_summary)
        r.channel_name 0 := by
  intro r hr
  simp only [run_pipeline] at hr
  rw [hparse] at hr
  dsimp only at hr
  rw [hpersona] at hr
  dsimp only at hr
  rw [hstrat] at hr
  dsimp only at hr
  rw [hcc] at hr
  dsimp only at hr
  rw [hvp] at hr
  dsimp only [planRecsOf] at hr
  rcases List.mem_map.mp hr with ⟨ch, _, rfl⟩
  rfl

/-- Witness for the amended claim C2 at the concrete fixture run: the
first plan entry's budget equals the Allocator's value for its channel. -/
theorem plan_budgets_from_allocator_witness :
    (buildChannelRec (allocate_budget 6000 ["Facebook Ads", "Pamphlets"]
        none)
      [("facebook_ads_copy", "FB copy"), ("pamphlets_copy", "P copy")]
      ["V1", "V2"] "Facebook Ads").allocated_budget =
    pyDictGetD (allocate_budget 6000 ["Facebook Ads", "Pamphlets"] none)
      "Facebook Ads" 0 := by
  have h := plan_budgets_from_allocator envOk rawOk cleanedOk "persona"
    stratOk
    [("facebook_ads_copy", "FB copy"), ("pamphlets_copy", "P copy")]
    ["V1", "V2"] (by rfl) (by rfl) (by rfl) (by rfl) (by rfl)
  exact h (buildChannelRec (allocate_budget 6000
      ["Facebook Ads", "Pamphlets"] none)
      [("facebook_ads_copy", "FB copy"), ("pamphlets_copy", "P copy")]
      ["V1", "V2"] "Facebook Ads") (by decide)

/-- Claim C5: if the Persona, Strategy, Creative or Visual generation
returns an error object, the pipeline halts before any later step executes
(the recorded step log stops at the failing step) and the request is
answered with a single transport-level failure carrying that step's
message; no partial plan is ever returned. -/
theorem fatal_generative_steps_halt (env : PipelineEnv) (raw : RawRequest)
    (cleaned : List (String × PyVal))
    (hparse : parse_input raw = Except.ok cleaned) :
    (∀ d, env.persona = Except.error d →
      run_pipeline env raw =
        ([StepName.parse, StepName.entities, StepName.history,
          StepName.trends, StepName.context, StepName.persona],
         Except.error ("Persona Generation Failed: " ++ d))) ∧
    (∀ p d, env.persona = Except.ok p → env.strategyLLM = Except.error d →
      run_pipeline env raw =
        ([StepName.parse, StepName.entities, StepName.history,
          StepName.trends, StepName.context, StepName.persona,
          StepName.strategy],
         Except.error ("Strategy Generation Failed: " ++ d))) ∧
    (∀ p strat d, env.persona = Except.ok p →
      generate_strategy env.strategyLLM (dictGetInt cleaned "budget" 0) =
        Except.ok strat →
      env.creative = Except.error d →
      run_pipeline env raw =
        ([StepName.parse, StepName.entities, StepName.history,
          StepName.trends, StepName.context, StepName.persona,
          StepName.strategy, StepName.allocator, StepName.creative],
         Except.error ("Creative Generation Failed: " ++ d))) ∧
    (∀ p strat cc d, env.persona = Except.ok p →
      generate_strategy env.strategyLLM (dictGetInt cleaned "budget" 0) =
        Except.ok strat →
      env.creative = Except.ok cc → env.visual = Except.error d →
      run_pipeline env raw =
        ([StepName.parse, StepName.entities, StepName.history,
          StepName.trends, StepName.context, StepName.persona,
          StepName.strategy, StepName.allocator, StepName.creative,
          StepName.visual],
         Except.error ("Visual Prompt Generation Failed: " ++ d))) := by
  refine ⟨?_, ?_, ?_, ?_⟩
  · intro d hd
    simp only [run_pipeline]
    rw [hparse]
    dsimp only
    rw [hd]
  · intro p d hp hd
    simp only [run_pipeline]
    rw [hparse]
    dsimp only
    rw [hp]
    dsimp only
    rw [hd]
    dsimp only [generate_strategy]
    rfl
  · intro p strat d hp hstrat hd
    simp only [run_pipeline]
    rw [hparse]
    dsimp only
    rw [hp]
    dsimp only
    rw [hstrat]
    dsimp only
    rw [hd]
    rfl
  · intro p strat cc d hp hstrat hcc hd
    simp only [run_pipeline]
    rw [hparse]
    dsimp only
    rw [hp]
    dsimp only
    rw [hstrat]
    dsimp only
    rw [hcc]
    dsimp only
    rw [hd]
    rfl

/-- Witness for claim C5: concrete failing environments for each of the
four generative steps produce exactly the truncated step log and the
transport-level error. -/
theorem fatal_generative_steps_halt_witness :
    run_pipeline { envOk with persona := Except.error "p boom" } rawOk =
      ([StepName.parse, StepName.entities, StepName.history,
        StepName.trends, StepName.context, StepName.persona],
       Except.error "Persona Generation Failed: p boom") ∧
    run_pipeline { envOk with strategyLLM := Except.error "s boom" } rawOk =
      ([StepName.parse, StepName.entities, StepName.history,
        StepName.trends, StepName.context, StepName.persona,
        StepName.strategy],
       Except.error "Strategy Generation Failed: s boom") ∧
    run_pipeline { envOk with creative := Except.error "c boom" } rawOk =
      ([StepName.parse, StepName.entities, StepName.history,
        StepName.trends, StepName.context, StepName.persona,
        StepName.strategy, StepName.allocator, StepName.creative],
       Except.error "Creative Generation Failed: c boom") ∧
    run_pipeline { envOk with visual := Except.error "v boom" } rawOk =
      ([StepName.parse, StepName.entities, StepName.history,
        StepName.trends, StepName.context, StepName.persona,
        StepName.strategy, StepName.allocator, StepName.creative,
        StepName.visual],
       Except.error "Visual Prompt Generation Failed: v boom") := by
  refine ⟨?_, ?_, ?_, ?_⟩
  · exact (fatal_generative_steps_halt
      { envOk with persona := Except.error "p boom" } rawOk cleanedOk
      (by rfl)).1 "p boom" (by rfl)
  · exact (fatal_generative_steps_halt
      { envOk with strategyLLM := Except.error "s boom" } rawOk cleanedOk
      (by rfl)).2.1 "persona" "s boom" (by rfl) (by rfl)
  · exact (fatal_generative_steps_halt
      { envOk with creative := Except.error "c boom" } rawOk cleanedOk
      (by rfl)).2.2.1 "persona"
      { stratOk with budget_split := stratOk.budget_split } "c boom"
      (by rfl) (by rfl) (by rfl)
  · exact (fatal_generative_steps_halt
      { envOk with visual := Except.error "v boom" } rawOk cleanedOk
      (by rfl)).2.2.2 "persona"
      { stratOk with budget_split := stratOk.budget_split }
      [("facebook_ads_copy", "FB copy"), ("pamphlets_copy", "P copy")]
      "v boom" (by rfl) (by rfl) (by rfl) (by rfl)

/-- Claim C10: in every assembled CampaignPlan, a channel recommendation's
tracking type is `"link"` exactly when the channel name contains the
substring `"Ads"` or the substring `"Online"` (case-sensitive), and
`"qr_code"` otherwise. -/
theorem plan_tracking_type (env : PipelineEnv) (raw : RawRequest)
    (cleaned : List (String × PyVal)) (p : String) (strat : StrategyRaw)
    (cc : List (String × String)) (vp : List String)
    (hparse : parse_input raw = Except.ok cleaned)
    (hpersona : env.persona = Except.ok p)
    (hstrat : generate_strategy env.strategyLLM
      (dictGetInt cleaned "budget" 0) = Except.ok strat)
    (hcc : env.creative = Except.ok cc) (hvp : env.visual = Except.ok vp) :
    ∀ r ∈ planRecsOf (run_pipeline env raw).2,
      r.tracking_type =
        if strContains r.channel_name "Ads" ||
            strContains r.channel_name "Online" then "link"
        else "qr_code" := by
  intro r hr
  simp only [run_pipeline] at hr
  rw [hparse] at hr
  dsimp only at hr
  rw [hpersona] at hr
  dsimp only at hr
  rw [hstrat] at hr
  dsimp only at hr
  rw [hcc] at hr
  dsimp only at hr
  rw [hvp] at hr
  dsimp only [planRecsOf] at hr
  rcases List.mem_map.mp hr with ⟨ch, _, rfl⟩
  rfl

/-- Witness for claim C10 at the concrete fixture run: the entry for
`"Facebook Ads"` (which contains `"Ads"`) carries the link tracking
type. -/
theorem plan_tracking_type_witness :
    (buildChannelRec (allocate_budget 6000 ["Facebook Ads", "Pamphlets"]
        none)
      [("facebook_ads_copy", "FB copy"), ("pamphlets_copy", "P copy")]
      ["V1", "V2"] "Facebook Ads").tracking_type =
    (if strContains "Facebook Ads" "Ads" ||
        strContains "Facebook Ads" "Online" then "link" else "qr_code") := by
  have h := plan_tracking_type envOk rawOk cleanedOk "persona" stratOk
    [("facebook_ads_copy", "FB copy"), ("pamphlets_copy", "P copy")]
    ["V1", "V2"] (by rfl) (by rfl) (by rfl) (by rfl) (by rfl)
  exact h (buildChannelRec (allocate_budget 6000
      ["Facebook Ads", "Pamphlets"] none)
      [("facebook_ads_copy", "FB copy"), ("pamphlets_copy", "P copy")]
      ["V1", "V2"] "Facebook Ads") (by decide)

/-! ### Claim C6 — high-ROI detection in the Budget Allocator -/

/-- Claim C6 counterexample: the summary
`"highest Conversion Rate Pamphlets"` does not contain the literal phrase
`"had the highest Conversion Rate"`, yet a high-ROI channel is identified
(the code only tests for the shorter substring
`"highest Conversion Rate"`, and when the longer phrase is absent the
candidate word is the last word of the whole summary), so a boost is
applied and the split differs from the plain equal base split. -/
theorem allocate_budget_boost_without_phrase :
    strContains "highest Conversion Rate Pamphlets"
        "had the highest Conversion Rate" = false ∧
    findHighROI (some "highest Conversion Rate Pamphlets")
        ["Pamphlets", "Flyers"] = some "Pamphlets" ∧
    allocate_budget 1000 ["Pamphlets", "Flyers"]
        (some "highest Conversion Rate Pamphlets") =
      [("Pamphlets", 600), ("Flyers", 400)] ∧
    allocate_budget 1000 ["Pamphlets", "Flyers"] none =
      [("Pamphlets", 500), ("Flyers", 500)] := by
  refine ⟨by decide, by decide, by decide, by decide⟩

/-- Claim C6 (amended): `allocate_budget` identifies a high-ROI channel
exactly when the history summary contains the literal substring
`"highest Conversion Rate"` and the last word of the text preceding the
first occurrence of `" had the highest Conversion Rate"` — the whole
summary when that longer phrase is absent — is a substring of one of the
current recommended channels (first such channel wins); identification
requires membership in the current channel list, and when no channel
matches, no boost is applied and the equal base split is unchanged. -/
theorem allocate_budget_highROI_rule :
    (∀ (summary : String) (channels : List String) (ch : String),
      findHighROI (some summary) channels = some ch →
      ch ∈ channels ∧
      strContains summary "highest Conversion Rate" = true ∧
      ∃ w, (strWords (strPrefixBefore summary
          " had the highest Conversion Rate")).getLast? = some w ∧
        strContains ch w = true) ∧
    (∀ (total : Int) (channels : List String) (summary : String),
      findHighROI (some summary) channels = none →
      allocate_budget total channels (some summary) =
        allocate_budget total channels none) := by
  constructor
  · intro summary channels ch h
    rw [findHighROI] at h
    by_cases hc : strContains summary "highest Conversion Rate" = true
    · rw [if_pos hc] at h
      dsimp only at h
      rcases hlast : (strWords (strPrefixBefore summary
          " had the highest Conversion Rate")).getLast? with _ | w
      · rw [hlast] at h
        cases h
      · rw [hlast] at h
        dsimp only at h
        refine ⟨List.mem_of_find?_eq_some h, hc, w, rfl, ?_⟩
        simpa using List.find?_some h
    · rw [if_neg hc] at h
      cases h
  · intro total channels summary h
    rw [allocate_budget, allocate_budget, h]
    rfl

/-- Witness for the amended claim C6: the detection inversion at the
counterexample summary, and the unchanged equal split for a summary that
names no recommended channel. -/
theorem allocate_budget_highROI_rule_witness :
    ("Pamphlets" ∈ ["Pamphlets", "Flyers"] ∧
      strContains "highest Conversion Rate Pamphlets"
        "highest Conversion Rate" = true ∧
      ∃ w, (strWords (strPrefixBefore "highest Conversion Rate Pamphlets"
          " had the highest Conversion Rate")).getLast? = some w ∧
        strContains "Pamphlets" w = true) ∧
    allocate_budget 1000 ["Pamphlets", "Flyers"]
        (some "Radio had the highest Conversion Rate") =
      allocate_budget 1000 ["Pamphlets", "Flyers"] none := by
  constructor
  · exact allocate_budget_highROI_rule.1 "highest Conversion Rate Pamphlets"
      ["Pamphlets", "Flyers"] "Pamphlets" (by decide)
  · exact allocate_budget_highROI_rule.2 1000 ["Pamphlets", "Flyers"]
      "Radio had the highest Conversion Rate" (by decide)

/-! ### Claim C1 — groundwork: dictionary operation lemmas -/

theorem dKeys_cons {α : Type} (p : String × α) (l : List (String × α)) :
    dKeys (p :: l) = p.1 :: dKeys l := rfl

theorem getD_not_mem {α : Type} {l : List (String × α)} {k : String}
    {d : α} (h : k ∉ dKeys l) : pyDictGetD l k d = d := by
  induction l with
  | nil => rfl
  | cons p rest ih =>
    rcases p with ⟨k0, v0⟩
    rw [pyDictGetD]
    rw [dKeys_cons, List.mem_cons] at h
    push_neg at h
    rw [if_neg (fun hh => h.1 hh.symm)]
    exact ih h.2

theorem getD_mem_entry {l : List (String × Int)} {k : String}
    (h : k ∈ dKeys l) : (k, pyDictGetD l k 0) ∈ l := by
  induction l with
  | nil => exact absurd h (List.not_mem_nil k)
  | cons p rest ih =>
    rcases p with ⟨k0, v0⟩
    rw [pyDictGetD]
    by_cases hk : k0 = k
    · subst hk
      rw [if_pos rfl]
      exact List.mem_cons_self _ _
    · rw [if_neg hk]
      rw [dKeys_cons, List.mem_cons] at h
      rcases h with h | h
      · exact absurd h.symm hk
      · exact List.mem_cons_of_mem _ (ih h)

theorem getD_ge_of_mem {l : List (String × Int)} {k : String} {b : Int}
    (hb : ∀ p ∈ l, b ≤ p.2) (h : k ∈ dKeys l) : b ≤ pyDictGetD l k 0 :=
  hb (k, pyDictGetD l k 0) (getD_mem_entry h)

theorem getD_nonneg {l : List (String × Int)} {k : String}
    (h : ∀ p ∈ l, 0 ≤ p.2) : 0 ≤ pyDictGetD l k 0 := by
  by_cases hk : k ∈ dKeys l
  · exact getD_ge_of_mem h hk
  · rw [getD_not_mem hk]

theorem mem_pyDictSet {α : Type} {l : List (String × α)} {k : String}
    {v : α} {p : String × α} (h : p ∈ pyDictSet l k v) :
    p = (k, v) ∨ p ∈ l := by
  induction l with
  | nil =>
    rw [pyDictSet] at h
    exact Or.inl (List.mem_singleton.mp h)
  | cons q rest ih =>
    rcases q with ⟨k0, v0⟩
    rw [pyDictSet] at h
    by_cases hk : k0 = k
    · rw [if_pos hk] at h
      rcases List.mem_cons.mp h with h | h
      · exact Or.inl h
      · exact Or.inr (List.mem_cons_of_mem _ h)
    · rw [if_neg hk] at h
      rcases List.mem_cons.mp h with h | h
      · exact Or.inr (h ▸ List.mem_cons_self _ _)
      · rcases ih h with h' | h'
        · exact Or.inl h'
        · exact Or.inr (List.mem_cons_of_mem _ h')

theorem mem_keys_pyDictSet {α : Type} {l : List (String × α)}
    {k k' : String} {v : α} :
    k' ∈ dKeys (pyDictSet l k v) ↔ k' = k ∨ k' ∈ dKeys l := by
  induction l with
  | nil => simp [pyDictSet, dKeys]
  | cons q rest ih =>
    rcases q with ⟨k0, v0⟩
    rw [pyDictSet]
    by_cases hk : k0 = k
    · subst hk
      simp [dKeys_cons]
    · rw [if_neg hk, dKeys_cons, dKeys_cons]
      simp only [List.mem_cons, ih]
      tauto

theorem nodup_keys_pyDictSet {α : Type} {l : List (String × α)}
    {k : String} {v : α} (h : (dKeys l).Nodup) :
    (dKeys (pyDictSet l k v)).Nodup := by
  induction l with
  | nil => simp [pyDictSet, dKeys]
  | cons q rest ih =>
    rcases q with ⟨k0, v0⟩
    rw [dKeys_cons, List.nodup_cons] at h
    rw [pyDictSet]
    by_cases hk : k0 = k
    · subst hk
      rw [if_pos rfl, dKeys_cons, List.nodup_cons]
      exact h
    · rw [if_neg hk, dKeys_cons, List.nodup_cons]
      refine ⟨?_, ih h.2⟩
      intro hmem
      rcases mem_keys_pyDictSet.mp hmem with h' | h'
      · exact hk h'
      · exact h.1 h'

theorem getD_pyDictSet_self {α : Type} {l : List (String × α)}
    {k : String} {v d : α} : pyDictGetD (pyDictSet l k v) k d = v := by
  induction l with
  | nil => simp [pyDictSet, pyDictGetD]
  | cons q rest ih =>
    rcases q with ⟨k0, v0⟩
    rw [pyDictSet]
    by_cases hk : k0 = k
    · rw [if_pos hk, pyDictGetD, if_pos rfl]
    · rw [if_neg hk, pyDictGetD, if_neg hk]
      exact ih

theorem getD_pyDictSet_ne {α : Type} {l : List (String × α)}
    {k k' : String} {v d : α} (h : k' ≠ k) :
    pyDictGetD (pyDictSet l k v) k' d = pyDictGetD l k' d := by
  induction l with
  | nil => simp only [pyDictSet, pyDictGetD, if_neg (Ne.symm h)]
  | cons q rest ih =>
    rcases q with ⟨k0, v0⟩
    rw [pyDictSet]
    by_cases hk : k0 = k
    · subst hk
      rw [if_pos rfl, pyDictGetD, pyDictGetD,
        if_neg (fun hh => h hh.symm), if_neg (fun hh => h hh.symm)]
    · rw [if_neg hk, pyDictGetD, pyDictGetD]
      by_cases hk0 : k0 = k'
      · rw [if_pos hk0, if_pos hk0]
      · rw [if_neg hk0, if_neg hk0]
        exact ih

theorem length_pyDictSet_mem {α : Type} {l : List (String × α)}
    {k : String} {v : α} (h : k ∈ dKeys l) :
    (pyDictSet l k v).length = l.length := by
  induction l with
  | nil => exact absurd h (List.not_mem_nil k)
  | cons q rest ih =>
    rcases q with ⟨k0, v0⟩
    rw [pyDictSet]
    by_cases hk : k0 = k
    · rw [if_pos hk]
      rfl
    · rw [if_neg hk]
      rw [dKeys_cons, List.mem_cons] at h
      rcases h with h | h
      · exact absurd h.symm hk
      · simp [ih h]

theorem length_pyDictSet_not_mem {α : Type} {l : List (String × α)}
    {k : String} {v : α} (h : k ∉ dKeys l) :
    (pyDictSet l k v).length = l.length + 1 := by
  induction l with
  | nil => rfl
  | cons q rest ih =>
    rcases q with ⟨k0, v0⟩
    rw [dKeys_cons, List.mem_cons] at h
    push_neg at h
    rw [pyDictSet, if_neg (fun hh => h.1 hh.symm)]
    simp [ih h.2]

theorem sumVals_pyDictSet_mem {l : List (String × Int)} {k : String}
    {v : Int} (h : k ∈ dKeys l) :
    sumVals (pyDictSet l k v) = sumVals l - pyDictGetD l k 0 + v := by
  induction l with
  | nil => exact absurd h (List.not_mem_nil k)
  | cons q rest ih =>
    rcases q with ⟨k0, v0⟩
    rw [pyDictSet, pyDictGetD]
    by_cases hk : k0 = k
    · rw [if_pos hk, if_pos hk, sumVals_cons, sumVals_cons]
      ring
    · rw [if_neg hk, if_neg hk, sumVals_cons, sumVals_cons]
      rw [dKeys_cons, List.mem_cons] at h
      rcases h with h | h
      · exact absurd h.symm hk
      · rw [ih h]
        ring

theorem sumVals_pyDictSet_not_mem {l : List (String × Int)} {k : String}
    {v : Int} (h : k ∉ dKeys l) :
    sumVals (pyDictSet l k v) = sumVals l + v := by
  induction l with
  | nil => simp [pyDictSet, sumVals]
  | cons q rest ih =>
    rcases q with ⟨k0, v0⟩
    rw [dKeys_cons, List.mem_cons] at h
    push_neg at h
    rw [pyDictSet, if_neg (fun hh => h.1 hh.symm), sumVals_cons,
      sumVals_cons, ih h.2]
    ring

theorem sumVals_nonneg {l : List (String × Int)}
    (h : ∀ p ∈ l, 0 ≤ p.2) : 0 ≤ sumVals l := by
  induction l with
  | nil => exact le_refl 0
  | cons q rest ih =>
    rw [sumVals_cons]
    have h1 := h q (List.mem_cons_self _ _)
    have h2 := ih (fun p hp => h p (List.mem_cons_of_mem _ hp))
    omega

theorem pyDictHasKey_iff {α : Type} {l : List (String × α)} {k : String} :
    pyDictHasKey l k = true ↔ k ∈ dKeys l := by
  induction l with
  | nil => simp [pyDictHasKey, dKeys]
  | cons q rest ih =>
    rcases q with ⟨k0, v0⟩
    rw [pyDictHasKey, dKeys_cons]
    simp only [Bool.or_eq_true, decide_eq_true_eq, List.mem_cons, ih]
    constructor
    · rintro (h | h)
      · exact Or.inl h.symm
      · exact Or.inr h
    · rintro (h | h)
      · exact Or.inl h.symm
      · exact Or.inr h

theorem clampNeg_eq_self {l : List (String × Int)}
    (h : ∀ p ∈ l, 0 ≤ p.2) : clampNeg l = l := by
  induction l with
  | nil => rfl
  | cons q rest ih =>
    rcases q with ⟨k0, v0⟩
    rw [clampNeg, List.map_cons]
    have h0 := h (k0, v0) (List.mem_cons_self _ _)
    rw [if_neg (by omega)]
    have := ih (fun p hp => h p (List.mem_cons_of_mem _ hp))
    rw [clampNeg] at this
    rw [this]

/-- Master invariant of the initial equal split: values stay at least
`base`, keys stay distinct and cover the processed channels, the length is
bounded by the number of processed indices, and the running sum never
exceeds `base * length + min i rem`. -/
theorem initSplit_facts (base rem : Int) :
    ∀ (chs : List String) (i : Nat) (acc : List (String × Int)),
      (∀ p ∈ acc, base ≤ p.2) →
      (dKeys acc).Nodup →
      sumVals acc ≤ base * acc.length + min (i : Int) rem →
      (acc.length : Int) ≤ (i : Int) →
      (∀ p ∈ initSplit base rem i chs acc, base ≤ p.2) ∧
      (dKeys (initSplit base rem i chs acc)).Nodup ∧
      sumVals (initSplit base rem i chs acc) ≤
        base * (initSplit base rem i chs acc).length +
          min ((i : Int) + chs.length) rem ∧
      ((initSplit base rem i chs acc).length : Int) ≤
        (i : Int) + chs.length ∧
      (∀ ch ∈ chs, ch ∈ dKeys (initSplit base rem i chs acc)) ∧
      (∀ k ∈ dKeys acc, k ∈ dKeys (initSplit base rem i chs acc)) := by
  intro chs
  induction chs with
  | nil =>
    intro i acc hA hB hC hD
    rw [initSplit]
    refine ⟨hA, hB, ?_, ?_, by simp, fun k hk => hk⟩
    · simpa using hC
    · simpa using hD
  | cons ch rest ih =>
    intro i acc hA hB hC hD
    rw [initSplit]
    have hδ : (0 : Int) ≤ (if (i : Int) < rem then 1 else 0) ∧
        (if (i : Int) < rem then (1 : Int) else 0) ≤ 1 := by
      split <;> omega
    have hA' : ∀ p ∈ pyDictSet acc ch
        (base + if (i : Int) < rem then 1 else 0), base ≤ p.2 := by
      intro p hp
      rcases mem_pyDictSet hp with rfl | hp'
      · have := hδ.1
        simp only []
        omega
      · exact hA p hp'
    have hB' : (dKeys (pyDictSet acc ch
        (base + if (i : Int) < rem then 1 else 0))).Nodup :=
      nodup_keys_pyDictSet hB
    have hmin : min (i : Int) rem +
        (if (i : Int) < rem then (1 : Int) else 0) ≤
        min ((i : Int) + 1) rem := by
      by_cases hlt : (i : Int) < rem
      · rw [if_pos hlt, min_eq_left (by omega), min_eq_left (by omega)]
      · rw [if_neg hlt, min_eq_right (by omega), min_eq_right (by omega)]
        omega
    have hC' : sumVals (pyDictSet acc ch
          (base + if (i : Int) < rem then 1 else 0)) ≤
        base * (pyDictSet acc ch
          (base + if (i : Int) < rem then 1 else 0)).length +
          min ((i : Int) + 1) rem := by
      by_cases hm : ch ∈ dKeys acc
      · rw [sumVals_pyDictSet_mem hm, length_pyDictSet_mem hm]
        have hget : base ≤ pyDictGetD acc ch 0 := getD_ge_of_mem hA hm
        have := hδ.1
        have := hδ.2
        omega
      · rw [sumVals_pyDictSet_not_mem hm, length_pyDictSet_not_mem hm]
        have hcast : ((acc.length + 1 : Nat) : Int) =
            (acc.length : Int) + 1 := by push_cast; ring
        rw [hcast, mul_add, mul_one]
        have := hδ.1
        have := hδ.2
        omega
    have hD' : ((pyDictSet acc ch
        (base + if (i : Int) < rem then 1 else 0)).length : Int) ≤
        (i : Int) + 1 := by
      by_cases hm : ch ∈ dKeys acc
      · rw [length_pyDictSet_mem hm]
        omega
      · rw [length_pyDictSet_not_mem hm]
        push_cast
        omega
    have hcast1 : ((i + 1 : Nat) : Int) = (i : Int) + 1 := by
      push_cast
      ring
    rcases ih (i + 1) (pyDictSet acc ch
        (base + if (i : Int) < rem then 1 else 0)) hA' hB'
        (by rw [hcast1]; exact hC')
        (by rw [hcast1]; exact hD') with
      ⟨r1, r2, r3, r4, r5, r6⟩
    refine ⟨r1, r2, ?_, ?_, ?_, ?_⟩
    · refine le_trans r3 (le_of_eq ?_)
      have harg : ((i + 1 : Nat) : Int) + (rest.length : Int) =
          (i : Int) + (((ch :: rest).length : Nat) : Int) := by
        simp only [List.length_cons]
        push_cast
        ring
      rw [harg]
    · simp only [List.length_cons]
      push_cast
      push_cast at r4
      omega
    · intro c hc
      rcases List.mem_cons.mp hc with rfl | hc'
      · exact r6 c (mem_keys_pyDictSet.mpr (Or.inl rfl))
      · exact r5 c hc'
    · intro k hk
      exact r6 k (mem_keys_pyDictSet.mpr (Or.inr hk))

theorem mem_keys_of_mem {α : Type} {l : List (String × α)} {p : String × α}
    (h : p ∈ l) : p.1 ∈ dKeys l :=
  List.mem_map_of_mem Prod.fst h

/-- Master invariant of the reduction-collection loop: every recorded
reduction is non-negative, bounded by its channel's current allocation,
never targets the boosted channel, the reduction keys stay distinct, and
the running total `actual` dominates the sum of recorded reductions. -/
theorem buildReductions_facts (alloc : List (String × Int))
    (boost totalOther : Int) (hi : String) (hboost : 0 ≤ boost)
    (hto : 0 < totalOther) (halloc : ∀ p ∈ alloc, 0 ≤ p.2) :
    ∀ (chs : List String) (red : List (String × Int)) (actual : Int),
      (∀ p ∈ red, 0 ≤ p.2 ∧ p.2 ≤ pyDictGetD alloc p.1 0 ∧ p.1 ≠ hi) →
      (dKeys red).Nodup →
      sumVals red ≤ actual →
      (∀ p ∈ (buildReductions alloc boost totalOther hi chs
          (red, actual)).1,
        0 ≤ p.2 ∧ p.2 ≤ pyDictGetD alloc p.1 0 ∧ p.1 ≠ hi) ∧
      (dKeys (buildReductions alloc boost totalOther hi chs
        (red, actual)).1).Nodup ∧
      sumVals (buildReductions alloc boost totalOther hi chs
          (red, actual)).1 ≤
        (buildReductions alloc boost totalOther hi chs (red, actual)).2 ∧
      actual ≤
        (buildReductions alloc boost totalOther hi chs (red, actual)).2 := by
  intro chs
  induction chs with
  | nil =>
    intro red actual h1 h2 h3
    exact ⟨h1, h2, h3, le_refl _⟩
  | cons ch rest ih =>
    intro red actual h1 h2 h3
    rw [buildReductions]
    by_cases hch : ch = hi
    · rw [if_pos hch]
      exact ih red actual h1 h2 h3
    · rw [if_neg hch]
      have ha : 0 ≤ pyDictGetD alloc ch 0 := getD_nonneg halloc
      have hr0 : 0 ≤ min
          (Int.tdiv (boost * pyDictGetD alloc ch 0) totalOther)
          (Int.tdiv (pyDictGetD alloc ch 0 * 3) 10) := by
        refine le_min ?_ ?_
        · exact Int.tdiv_nonneg (mul_nonneg hboost ha) (le_of_lt hto)
        · exact Int.tdiv_nonneg (by omega) (by norm_num)
      have hra : min (Int.tdiv (boost * pyDictGetD alloc ch 0) totalOther)
          (Int.tdiv (pyDictGetD alloc ch 0 * 3) 10) ≤
          pyDictGetD alloc ch 0 := by
        refine le_trans (min_le_right _ _) ?_
        rw [Int.tdiv_eq_ediv (by omega) (by norm_num)]
        calc pyDictGetD alloc ch 0 * 3 / 10 ≤
            pyDictGetD alloc ch 0 * 10 / 10 := by
              refine Int.ediv_le_ediv (by norm_num) ?_
              exact mul_le_mul_of_nonneg_left (by norm_num) ha
          _ = pyDictGetD alloc ch 0 := Int.mul_ediv_cancel _ (by norm_num)
      dsimp only
      have hred' : ∀ p ∈ pyDictSet red ch
          (min (Int.tdiv (boost * pyDictGetD alloc ch 0) totalOther)
            (Int.tdiv (pyDictGetD alloc ch 0 * 3) 10)),
          0 ≤ p.2 ∧ p.2 ≤ pyDictGetD alloc p.1 0 ∧ p.1 ≠ hi := by
        intro p hp
        rcases mem_pyDictSet hp with rfl | hp'
        · exact ⟨hr0, hra, hch⟩
        · exact h1 p hp'
      have hsum' : sumVals (pyDictSet red ch
          (min (Int.tdiv (boost * pyDictGetD alloc ch 0) totalOther)
            (Int.tdiv (pyDictGetD alloc ch 0 * 3) 10))) ≤
          actual + min (Int.tdiv (boost * pyDictGetD alloc ch 0) totalOther)
            (Int.tdiv (pyDictGetD alloc ch 0 * 3) 10) := by
        by_cases hm : ch ∈ dKeys red
        · rw [sumVals_pyDictSet_mem hm]
          have : 0 ≤ pyDictGetD red ch 0 :=
            getD_nonneg (fun p hp => (h1 p hp).1)
          omega
        · rw [sumVals_pyDictSet_not_mem hm]
          omega
      rcases ih (pyDictSet red ch
          (min (Int.tdiv (boost * pyDictGetD alloc ch 0) totalOther)
            (Int.tdiv (pyDictGetD alloc ch 0 * 3) 10)))
          (actual + min (Int.tdiv (boost * pyDictGetD alloc ch 0) totalOther)
            (Int.tdiv (pyDictGetD alloc ch 0 * 3) 10))
          hred' (nodup_keys_pyDictSet h2) hsum' with ⟨a1, a2, a3, a4⟩
      exact ⟨a1, a2, a3, le_trans (by omega) a4⟩

/-- Applying the recorded reductions lowers the dict's sum by exactly the
sum of the reductions. -/
theorem sumVals_applyReductions :
    ∀ (red A : List (String × Int)),
      sumVals (applyReductions A red) = sumVals A - sumVals red := by
  intro red
  induction red with
  | nil =>
    intro A
    rw [applyReductions, List.foldl_nil, sumVals_nil]
    ring
  | cons q rest ih =>
    intro A
    rcases q with ⟨k, r⟩
    rw [applyReductions, List.foldl_cons]
    have hstep : sumVals (pyDictSet A k (pyDictGetD A k 0 - r)) =
        sumVals A - r := by
      by_cases hm : k ∈ dKeys A
      · rw [sumVals_pyDictSet_mem hm]
        ring
      · rw [sumVals_pyDictSet_not_mem hm, getD_not_mem hm]
        ring
    have := ih (pyDictSet A k (pyDictGetD A k 0 - r))
    rw [applyReductions] at this
    rw [this, hstep, sumVals_cons]
    ring

/-- Applying reductions bounded by the current allocations keeps every
value non-negative. -/
theorem applyReductions_nonneg :
    ∀ (red A : List (String × Int)), (∀ p ∈ A, 0 ≤ p.2) →
      (∀ p ∈ red, 0 ≤ p.2 ∧ p.2 ≤ pyDictGetD A p.1 0) →
      (dKeys red).Nodup →
      ∀ p ∈ applyReductions A red, 0 ≤ p.2 := by
  intro red
  induction red with
  | nil =>
    intro A hA _ _ p hp
    rw [applyReductions, List.foldl_nil] at hp
    exact hA p hp
  | cons q rest ih =>
    intro A hA hred hnd p hp
    rcases q with ⟨k, r⟩
    rw [applyReductions, List.foldl_cons] at hp
    have hk := hred (k, r) (List.mem_cons_self _ _)
    have hk2 : r ≤ pyDictGetD A k 0 := hk.2
    have hA' : ∀ p ∈ pyDictSet A k (pyDictGetD A k 0 - r), 0 ≤ p.2 := by
      intro p' hp'
      rcases mem_pyDictSet hp' with rfl | hp''
      · simp only []
        omega
      · exact hA p' hp''
    rw [dKeys_cons, List.nodup_cons] at hnd
    have hred' : ∀ p ∈ rest, 0 ≤ p.2 ∧
        p.2 ≤ pyDictGetD (pyDictSet A k (pyDictGetD A k 0 - r)) p.1 0 := by
      intro p' hp'
      have hne : p'.1 ≠ k := by
        intro hh
        have hmem := mem_keys_of_mem hp'
        rw [hh] at hmem
        exact hnd.1 hmem
      rw [getD_pyDictSet_ne hne]
      exact hred p' (List.mem_cons_of_mem _ hp')
    have := ih (pyDictSet A k (pyDictGetD A k 0 - r)) hA' hred' hnd.2
    rw [applyReductions] at this
    exact this p hp

/-- Keys outside the reductions dict keep their value. -/
theorem getD_applyReductions_not_mem :
    ∀ (red A : List (String × Int)) (k : String), k ∉ dKeys red →
      pyDictGetD (applyReductions A red) k 0 = pyDictGetD A k 0 := by
  intro red
  induction red with
  | nil =>
    intro A k _
    rw [applyReductions, List.foldl_nil]
  | cons q rest ih =>
    intro A k hk
    rcases q with ⟨k0, r⟩
    rw [dKeys_cons, List.mem_cons] at hk
    push_neg at hk
    rw [applyReductions, List.foldl_cons]
    have := ih (pyDictSet A k0 (pyDictGetD A k0 0 - r)) k hk.2
    rw [applyReductions] at this
    rw [this, getD_pyDictSet_ne hk.1]

/-- Applying reductions never loses a key. -/
theorem keys_applyReductions_superset :
    ∀ (red A : List (String × Int)) (k : String), k ∈ dKeys A →
      k ∈ dKeys (applyReductions A red) := by
  intro red
  induction red with
  | nil =>
    intro A k hk
    rw [applyReductions, List.foldl_nil]
    exact hk
  | cons q rest ih =>
    intro A k hk
    rcases q with ⟨k0, r⟩
    rw [applyReductions, List.foldl_cons]
    have := ih (pyDictSet A k0 (pyDictGetD A k0 0 - r)) k
      (mem_keys_pyDictSet.mpr (Or.inr hk))
    rw [applyReductions] at this
    exact this

/-- Applying reductions preserves distinctness of keys. -/
theorem nodup_keys_applyReductions :
    ∀ (red A : List (String × Int)), (dKeys A).Nodup →
      (dKeys (applyReductions A red)).Nodup := by
  intro red
  induction red with
  | nil =>
    intro A hA
    rw [applyReductions, List.foldl_nil]
    exact hA
  | cons q rest ih =>
    intro A hA
    rcases q with ⟨k0, r⟩
    rw [applyReductions, List.foldl_cons]
    have := ih (pyDictSet A k0 (pyDictGetD A k0 0 - r))
      (nodup_keys_pyDictSet hA)
    rw [applyReductions] at this
    exact this

/-- Master facts about the boost phase: values stay non-negative, keys are
preserved and stay distinct, and either the sum still fits under `total`
or the boosted channel's own entry absorbs the whole excess. -/
theorem applyBoost_facts (total base : Int) (alloc : List (String × Int))
    (channels : List String) (hi : Option String) (hbase : 0 ≤ base)
    (hA : ∀ p ∈ alloc, 0 ≤ p.2) (hnd : (dKeys alloc).Nodup)
    (hsum : sumVals alloc ≤ total) :
    (∀ p ∈ applyBoost total base alloc channels hi, 0 ≤ p.2) ∧
    (dKeys (applyBoost total base alloc channels hi)).Nodup ∧
    (∀ k ∈ dKeys alloc,
      k ∈ dKeys (applyBoost total base alloc channels hi)) ∧
    (sumVals (applyBoost total base alloc channels hi) ≤ total ∨
      ∃ p ∈ applyBoost total base alloc channels hi,
        sumVals (applyBoost total base alloc channels hi) - total ≤
          p.2) := by
  rcases hi with _ | h
  · rw [applyBoost]
    exact ⟨hA, hnd, fun k hk => hk, Or.inl hsum⟩
  · rw [applyBoost]
    by_cases hcond : pyDictHasKey alloc h = true ∧ 1 < channels.length
    · rw [if_pos hcond]
      dsimp only
      by_cases hto : (0 : Int) < total - pyDictGetD alloc h 0
      · rw [if_pos hto]
        have hvnn : 0 ≤ pyDictGetD alloc h 0 := getD_nonneg hA
        have hboost : 0 ≤ min (Int.fdiv base 2)
            (Int.tdiv (pyDictGetD alloc h 0) 5) := by
          refine le_min ?_ ?_
          · exact Int.fdiv_nonneg hbase (by norm_num)
          · exact Int.tdiv_nonneg hvnn (by norm_num)
        rcases buildReductions_facts alloc
            (min (Int.fdiv base 2) (Int.tdiv (pyDictGetD alloc h 0) 5))
            (total - pyDictGetD alloc h 0) h hboost hto hA channels [] 0
            (by intro p hp; cases hp) (by simp [dKeys])
            (by rw [sumVals_nil]) with ⟨red1, red2, red3, red4⟩
        by_cases hact : (0 : Int) <
            (buildReductions alloc
              (min (Int.fdiv base 2) (Int.tdiv (pyDictGetD alloc h 0) 5))
              (total - pyDictGetD alloc h 0) h channels ([], 0)).2
        · rw [if_pos hact]
          have hkey : h ∈ dKeys alloc := pyDictHasKey_iff.mp hcond.1
          have hA' : ∀ p ∈ pyDictSet alloc h (pyDictGetD alloc h 0 +
              (buildReductions alloc
                (min (Int.fdiv base 2) (Int.tdiv (pyDictGetD alloc h 0) 5))
                (total - pyDictGetD alloc h 0) h channels ([], 0)).2),
              0 ≤ p.2 := by
            intro p hp
            rcases mem_pyDictSet hp with rfl | hp'
            · simp only []
              omega
            · exact hA p hp'
          have hsumA : sumVals (pyDictSet alloc h (pyDictGetD alloc h 0 +
              (buildReductions alloc
                (min (Int.fdiv base 2) (Int.tdiv (pyDictGetD alloc h 0) 5))
                (total - pyDictGetD alloc h 0) h channels ([], 0)).2)) =
              sumVals alloc +
              (buildReductions alloc
                (min (Int.fdiv base 2) (Int.tdiv (pyDictGetD alloc h 0) 5))
                (total - pyDictGetD alloc h 0) h channels ([], 0)).2 := by
            rw [sumVals_pyDictSet_mem hkey]
            ring
          have hnotred : h ∉ dKeys (buildReductions alloc
              (min (Int.fdiv base 2) (Int.tdiv (pyDictGetD alloc h 0) 5))
              (total - pyDictGetD alloc h 0) h channels ([], 0)).1 := by
            intro hmem
            rcases List.mem_map.mp hmem with ⟨p, hp, hfst⟩
            exact (red1 p hp).2.2 hfst
          have hbounds : ∀ p ∈ (buildReductions alloc
              (min (Int.fdiv base 2) (Int.tdiv (pyDictGetD alloc h 0) 5))
              (total - pyDictGetD alloc h 0) h channels ([], 0)).1,
              0 ≤ p.2 ∧ p.2 ≤ pyDictGetD (pyDictSet alloc h
                (pyDictGetD alloc h 0 +
                  (buildReductions alloc
                    (min (Int.fdiv base 2)
                      (Int.tdiv (pyDictGetD alloc h 0) 5))
                    (total - pyDictGetD alloc h 0) h channels
                    ([], 0)).2)) p.1 0 := by
            intro p hp
            rcases red1 p hp with ⟨hp1, hp2, hp3⟩
            rw [getD_pyDictSet_ne hp3]
            exact ⟨hp1, hp2⟩
          refine ⟨?_, ?_, ?_, ?_⟩
          · exact applyReductions_nonneg _ _ hA' hbounds red2
          · exact nodup_keys_applyReductions _ _ (nodup_keys_pyDictSet hnd)
          · intro k hk
            exact keys_applyReductions_superset _ _ k
              (mem_keys_pyDictSet.mpr (Or.inr hk))
          · by_cases hover : sumVals (applyReductions
                (pyDictSet alloc h (pyDictGetD alloc h 0 +
                  (buildReductions alloc
                    (min (Int.fdiv base 2)
                      (Int.tdiv (pyDictGetD alloc h 0) 5))
                    (total - pyDictGetD alloc h 0) h channels ([], 0)).2))
                (buildReductions alloc
                  (min (Int.fdiv base 2)
                    (Int.tdiv (pyDictGetD alloc h 0) 5))
                  (total - pyDictGetD alloc h 0) h channels
                  ([], 0)).1) ≤ total
            · exact Or.inl hover
            · refine Or.inr ?_
              have hget : pyDictGetD (applyReductions
                  (pyDictSet alloc h (pyDictGetD alloc h 0 +
                    (buildReductions alloc
                      (min (Int.fdiv base 2)
                        (Int.tdiv (pyDictGetD alloc h 0) 5))
                      (total - pyDictGetD alloc h 0) h channels
                      ([], 0)).2))
                  (buildReductions alloc
                    (min (Int.fdiv base 2)
                      (Int.tdiv (pyDictGetD alloc h 0) 5))
                    (total - pyDictGetD alloc h 0) h channels
                    ([], 0)).1) h 0 =
                  pyDictGetD alloc h 0 +
                  (buildReductions alloc
                    (min (Int.fdiv base 2)
                      (Int.tdiv (pyDictGetD alloc h 0) 5))
                    (total - pyDictGetD alloc h 0) h channels ([], 0)).2 := by
                rw [getD_applyReductions_not_mem _ _ _ hnotred]
                exact getD_pyDictSet_self
              have hkeyres : h ∈ dKeys (applyReductions
                  (pyDictSet alloc h (pyDictGetD alloc h 0 +
                    (buildReductions alloc
                      (min (Int.fdiv base 2)
                        (Int.tdiv (pyDictGetD alloc h 0) 5))
                      (total - pyDictGetD alloc h 0) h channels
                      ([], 0)).2))
                  (buildReductions alloc
                    (min (Int.fdiv base 2)
                      (Int.tdiv (pyDictGetD alloc h 0) 5))
                    (total - pyDictGetD alloc h 0) h channels ([], 0)).1) :=
                keys_applyReductions_superset _ _ h
                  (mem_keys_pyDictSet.mpr (Or.inl rfl))
              refine ⟨(h, _), getD_mem_entry hkeyres, ?_⟩
              rw [hget]
              rw [sumVals_applyReductions, hsumA]
              have hredsum : 0 ≤ sumVals (buildReductions alloc
                  (min (Int.fdiv base 2)
                    (Int.tdiv (pyDictGetD alloc h 0) 5))
                  (total - pyDictGetD alloc h 0) h channels ([], 0)).1 :=
                sumVals_nonneg (fun p hp => (red1 p hp).1)
              omega
        · rw [if_neg hact]
          exact ⟨hA, hnd, fun k hk => hk, Or.inl hsum⟩
      · rw [if_neg hto]
        exact ⟨hA, hnd, fun k hk => hk, Or.inl hsum⟩
    · rw [if_neg hcond]
      exact ⟨hA, hnd, fun k hk => hk, Or.inl hsum⟩

/-- Exact-sum correction facts: on a non-empty dict with distinct keys,
non-negative values, and the safety property that any excess over `total`
is covered by some single entry, `fixDiff` restores the exact sum and
keeps every value non-negative. -/
theorem fixDiff_facts (total : Int) (l : List (String × Int)) (hne : l ≠ [])
    (hnd : (dKeys l).Nodup) (hv : ∀ p ∈ l, 0 ≤ p.2)
    (hsafe : sumVals l ≤ total ∨ ∃ p ∈ l, sumVals l - total ≤ p.2) :
    (∀ p ∈ fixDiff total l, 0 ≤ p.2) ∧
    sumVals (fixDiff total l) = total := by
  rw [fixDiff]
  by_cases hd : total - sumVals l = 0
  · rw [if_pos (Or.inl hd)]
    exact ⟨hv, by omega⟩
  · rw [if_neg (by
      rintro (h | h)
      · exact hd h
      · exact hne h)]
    rcases hmax : maxEntry l with _ | ⟨k, v⟩
    · exact absurd (maxEntry_eq_none hmax) hne
    · dsimp only
      rcases maxEntry_spec l k v hmax with ⟨⟨l1, l2, hsplit, _⟩, hub⟩
      have hk1 : k ∉ dKeys l1 := by
        intro hk
        rw [hsplit] at hnd
        simp only [dKeys, List.map_append, List.map_cons] at hnd
        exact (List.disjoint_of_nodup_append hnd) hk
          (List.mem_cons_self _ _)
      have hset : pyDictSet l k (v + (total - sumVals l)) =
          l1 ++ (k, v + (total - sumVals l)) :: l2 := by
        rw [hsplit, pyDictSet_append_not_mem hk1]
      have hvk : 0 ≤ v + (total - sumVals l) := by
        by_cases hover : sumVals l ≤ total
        · have : (k, v) ∈ l := by
            rw [hsplit]
            exact List.mem_append_right _ (List.mem_cons_self _ _)
          have := hv _ this
          simp only [] at this
          omega
        · rcases hsafe with h | ⟨p, hp, hb⟩
          · exact absurd h hover
          · have := hub p hp
            omega
      have hsums : sumVals l = sumVals l1 + v + sumVals l2 := by
        rw [hsplit, sumVals_append, sumVals_cons]
        ring
      constructor
      · intro p hp
        rw [hset] at hp
        rcases List.mem_append.mp hp with hp' | hp'
        · refine hv p ?_
          rw [hsplit]
          exact List.mem_append_left _ hp'
        · rcases List.mem_cons.mp hp' with rfl | hp''
          · simpa using hvk
          · refine hv p ?_
            rw [hsplit]
            exact List.mem_append_right _ (List.mem_cons_of_mem _ hp'')
      · rw [hset, sumVals_append, sumVals_cons]
        simp only []
        omega

/-- Second correction is a no-op once the sum is exact. -/
theorem fixDiff_eq_self {total : Int} {l : List (String × Int)}
    (h : sumVals l = total) : fixDiff total l = l := by
  rw [fixDiff]
  rw [if_pos (Or.inl (by omega))]

/-- Claim C1: for every call of `allocate_budget` with a non-empty channel
list and a non-negative total budget, the returned split has every value
non-negative and its values sum exactly to the total budget. -/
theorem allocate_budget_sum_and_nonneg (total : Int)
    (channels : List String) (prev : Option String) (hne : channels ≠ [])
    (ht : 0 ≤ total) :
    (∀ p ∈ allocate_budget total channels prev, 0 ≤ p.2) ∧
    sumVals (allocate_budget total channels prev) = total := by
  rw [allocate_budget]
  by_cases h0 : channels.length = 0 ∨ total ≤ 0
  · rw [if_pos h0]
    rcases h0 with h0 | h0
    · exact absurd (List.length_eq_zero.mp h0) hne
    · have htz : total = 0 := le_antisymm h0 ht
      refine ⟨?_, ?_⟩
      · intro p hp
        cases hp
      · rw [sumVals_nil, htz]
  · rw [if_neg h0]
    push_neg at h0
    have hnpos : 0 < channels.length := Nat.pos_of_ne_zero h0.1
    have htpos : 0 < total := h0.2
    have hcast : (0 : Int) < (channels.length : Int) := by
      exact_mod_cast hnpos
    have hbase : 0 ≤ Int.fdiv total channels.length :=
      Int.fdiv_nonneg ht (by omega)
    have hremeq : Int.fmod total channels.length =
        total % (channels.length : Int) :=
      Int.fmod_eq_emod total (by omega)
    have hrem0 : 0 ≤ Int.fmod total channels.length := by
      rw [hremeq]
      exact Int.emod_nonneg total (by omega)
    have hdiveq : Int.fdiv total channels.length =
        total / (channels.length : Int) :=
      Int.fdiv_eq_ediv total (by omega)
    have hident : (channels.length : Int) *
        Int.fdiv total channels.length +
        Int.fmod total channels.length = total := by
      rw [hremeq, hdiveq]
      exact Int.ediv_add_emod total (channels.length : Int)
    rcases initSplit_facts (Int.fdiv total channels.length)
        (Int.fmod total channels.length) channels 0 []
        (by intro p hp; cases hp) (by simp [dKeys])
        (by rw [sumVals_nil]; simp; exact hrem0) (by simp) with
      ⟨i1, i2, i3, i4, i5, _⟩
    have i1' : ∀ p ∈ initSplit (Int.fdiv total channels.length)
        (Int.fmod total channels.length) 0 channels [], 0 ≤ p.2 :=
      fun p hp => le_trans hbase (i1 p hp)
    have hsum0 : sumVals (initSplit (Int.fdiv total channels.length)
        (Int.fmod total channels.length) 0 channels []) ≤ total := by
      refine le_trans i3 ?_
      have hlen : ((initSplit (Int.fdiv total channels.length)
          (Int.fmod total channels.length) 0 channels []).length : Int) ≤
          (channels.length : Int) := by
        have := i4
        push_cast at this ⊢
        omega
      have hmul : Int.fdiv total channels.length *
          ((initSplit (Int.fdiv total channels.length)
            (Int.fmod total channels.length) 0 channels []).length : Int) ≤
          Int.fdiv total channels.length * (channels.length : Int) :=
        mul_le_mul_of_nonneg_left hlen hbase
      have hminle : min ((0 : Int) + (channels.length : Int))
          (Int.fmod total channels.length) ≤
          Int.fmod total channels.length := min_le_right _ _
      have hfin : Int.fdiv total channels.length *
          (channels.length : Int) +
          Int.fmod total channels.length = total := by
        rw [mul_comm]
        exact hident
      push_cast
      push_cast at hmul hminle hfin
      omega
    rcases applyBoost_facts total (Int.fdiv total channels.length)
        (initSplit (Int.fdiv total channels.length)
          (Int.fmod total channels.length) 0 channels [])
        channels (findHighROI prev channels) hbase i1' i2 hsum0 with
      ⟨b1, b2, b3, b4⟩
    have hne1 : applyBoost total (Int.fdiv total channels.length)
        (initSplit (Int.fdiv total channels.length)
          (Int.fmod total channels.length) 0 channels [])
        channels (findHighROI prev channels) ≠ [] := by
      intro hempty
      rcases channels with _ | ⟨c, cs⟩
      · exact hne rfl
      · have := b3 c (i5 c (List.mem_cons_self _ _))
        rw [hempty] at this
        exact absurd this (List.not_mem_nil c)
    rcases fixDiff_facts total _ hne1 b2 b1 b4 with ⟨f1, f2⟩
    have hclamp : clampNeg (fixDiff total (applyBoost total
        (Int.fdiv total channels.length)
        (initSplit (Int.fdiv total channels.length)
          (Int.fmod total channels.length) 0 channels [])
        channels (findHighROI prev channels))) =
        fixDiff total (applyBoost total (Int.fdiv total channels.length)
        (initSplit (Int.fdiv total channels.length)
          (Int.fmod total channels.length) 0 channels [])
        channels (findHighROI prev channels)) := clampNeg_eq_self f1
    dsimp only
    rw [hclamp, fixDiff_eq_self f2]
    exact ⟨f1, f2⟩

/-- Witness for claim C1 at a boost-exercising input: budget 1000, two
channels, and a history summary that triggers the high-ROI path. -/
theorem allocate_budget_sum_and_nonneg_witness :
    sumVals (allocate_budget 1000 ["Pamphlets", "Flyers"]
      (some "highest Conversion Rate Pamphlets")) = 1000 ∧
    0 ≤ pyDictGetD (allocate_budget 1000 ["Pamphlets", "Flyers"]
      (some "highest Conversion Rate Pamphlets")) "Flyers" 0 := by
  have h := allocate_budget_sum_and_nonneg 1000 ["Pamphlets", "Flyers"]
    (some "highest Conversion Rate Pamphlets") (by decide) (by decide)
  exact ⟨h.2, getD_nonneg h.1⟩

end MarketAI
